import Mathlib

set_option maxRecDepth 8000

/-!
Shallow embedding of the `largedev` MCMC toolkit's core (`src/histogram.rs` and
`src/wanglandau.rs`) and proofs about it.

Modelling conventions:
* `f64` values are modelled as `ℚ` (the spec promises no floating-point
  precision guarantees beyond standard arithmetic, and every control decision
  in the embedded code is an order comparison or exact arithmetic).
* The library exponential `f64::exp` appearing in the acceptance probability is
  abstracted as an explicit parameter `rexp : ℚ → ℚ`; theorems that need it
  assume only its positivity, which is the single property of `exp` the
  control flow of the source depends on.
* The random number generator is an infinite stream of rationals with a cursor
  (`Rng`); `rng.gen::<f64>()` in the source draws from `[0,1)`.
* Panics (assertion failures, out-of-bounds indexing inside `trim`) are
  modelled with `Option`: `none` means the call does not return normally.
  The unbounded `while` loops of `WangLandau::run` are modelled with fuel;
  exhausting the fuel also yields `none`.
-/

/-- Embeds `struct Histogram` of `src/histogram.rs`: bounds, bin count and the
accumulator vector. -/
structure Histogram where
  low : ℚ
  high : ℚ
  bins : ℕ
  histogram : List ℚ

deriving instance DecidableEq for Histogram

/-- Embeds `Histogram::new`. The source asserts `low < high` (a panic on
violation, hence `none`); on success all accumulators start at zero. -/
def Histogram.new (low high : ℚ) (bins : ℕ) : Option Histogram :=
  if low < high then some ⟨low, high, bins, List.replicate bins 0⟩ else none

/-- Bin lookup used by `add`, `count` and `at`:
`((value-low)/(high-low) * bins as f64) as usize`; the `as usize` cast
truncates, which on the non-negative in-range values is the floor. -/
def binIndex (low high : ℚ) (bins : ℕ) (v : ℚ) : ℕ :=
  (⌊(v - low) / (high - low) * (bins : ℚ)⌋).toNat

/-- Bin lookup of a histogram value. -/
def Histogram.binIdx (h : Histogram) (v : ℚ) : ℕ :=
  binIndex h.low h.high h.bins v

/-- Embeds `Histogram::add`: inside the open interval `(low, high)` the owning
bin is incremented by `amount`, otherwise the call is a silent no-op. -/
def Histogram.add (h : Histogram) (v amount : ℚ) : Histogram :=
  if h.low < v ∧ v < h.high then
    { h with
      histogram := h.histogram.set (h.binIdx v) (h.histogram.getD (h.binIdx v) 0 + amount) }
  else h

/-- Embeds `Histogram::count`, whose body duplicates `add` with amount `1`. -/
def Histogram.count (h : Histogram) (v : ℚ) : Histogram :=
  if h.low < v ∧ v < h.high then
    { h with
      histogram := h.histogram.set (h.binIdx v) (h.histogram.getD (h.binIdx v) 0 + 1) }
  else h

/-- Embeds `Histogram::min`: the minimum over all accumulators. The source
panics on an empty histogram; every use in this development is on a nonempty
one, and the `[]` case is totalised to `0`. -/
def Histogram.min (h : Histogram) : ℚ :=
  match h.histogram with
  | [] => 0
  | x :: xs => xs.foldl Min.min x

/-- Embeds `Histogram::at` (named `at'` because `at` is a Lean keyword): the
bin's accumulator inside the open interval, `none` outside. -/
def Histogram.at' (h : Histogram) (v : ℚ) : Option ℚ :=
  if h.low < v ∧ v < h.high then some (h.histogram.getD (h.binIdx v) 0)
  else none

/-- Embeds `Histogram::reset`: every accumulator is set back to zero in
place. -/
def Histogram.reset (h : Histogram) : Histogram :=
  { h with histogram := h.histogram.map fun _ => 0 }

/-- Embeds `Histogram::mean`: the sum of the accumulators divided by the bin
count. -/
def Histogram.mean (h : Histogram) : ℚ :=
  h.histogram.sum / (h.bins : ℚ)

/-- Embeds `Histogram::bounds`. -/
def Histogram.bounds (h : Histogram) : ℚ × ℚ :=
  (h.low, h.high)

/-- Embeds `Histogram::data`. -/
def Histogram.data (h : Histogram) : List ℚ :=
  h.histogram

/-- Index of the first strictly positive entry, `none` if there is none.
This is the scanning loop of `Histogram::trim` (which panics, via
out-of-bounds indexing, exactly when no positive entry exists). -/
def firstPos : List ℚ → Option ℕ
  | [] => none
  | x :: xs => if 0 < x then some 0 else (firstPos xs).map (· + 1)

/-- Embeds `Histogram::trim`: drop the leading run of non-positive bins,
recomputing `low` from the removed fraction, then drop the trailing run,
recomputing `high` from the already-updated fields, exactly as the source
does. `none` models the panic on a histogram without any positive bin. -/
def Histogram.trim (h : Histogram) : Option Histogram :=
  match firstPos h.histogram with
  | none => none
  | some lb =>
    let low' := h.low + (lb : ℚ) * (h.high - h.low) / (h.bins : ℚ)
    let bins1 := h.bins - lb
    let hist1 := h.histogram.drop lb
    match firstPos hist1.reverse with
    | none => none
    | some rb =>
      let high' := low' + (((bins1 - rb : ℕ)) : ℚ) * (h.high - low') / (bins1 : ℚ)
      some ⟨low', high', bins1 - rb, hist1.take (bins1 - rb)⟩

/-- Folds a list of `add (value, amount)` operations over a histogram; used to
express "the accumulated total of a bin" for the `at` specification. -/
def applyOps (h : Histogram) (ops : List (ℚ × ℚ)) : Histogram :=
  ops.foldl (fun hh p => hh.add p.1 p.2) h

/-- Modelled from the spec: the accumulated total of the bin owning `v` after
a sequence of `add` operations, namely the sum of the amounts of the in-range
operations that land in `v`'s bin. -/
def accumulated (low high : ℚ) (bins : ℕ) (v : ℚ) : List (ℚ × ℚ) → ℚ
  | [] => 0
  | p :: rest =>
    (if low < p.1 ∧ p.1 < high ∧ binIndex low high bins p.1 = binIndex low high bins v
      then p.2 else 0) + accumulated low high bins v rest

/-- A deterministic model of the random number stream: an infinite sequence of
rationals with a cursor. -/
structure Rng where
  seq : ℕ → ℚ
  pos : ℕ

/-- Draw the next value from the stream. -/
def Rng.next (r : Rng) : ℚ × Rng :=
  (r.seq r.pos, ⟨r.seq, r.pos + 1⟩)

/-- Embeds the `MarkovChain` trait of `src/markovchain.rs`: a state type with
`value`, `change` (which may consume randomness) and `undo`. -/
structure Model (σ : Type) where
  value : σ → ℚ
  change : σ → Rng → σ × Rng
  undo : σ → σ

/-- The mutable state of `WangLandau::run`: the model, the RNG, the two
histograms `g` and `h`, the counters `tries`/`rejects`, the sweep counter `t`
and the refinement parameter `lnf`. -/
structure WLState (σ : Type) where
  model : σ
  rng : Rng
  g : Histogram
  h : Histogram
  tries : ℕ
  rejects : ℕ
  t : ℕ
  lnf : ℚ

/-- The acceptance probability computed in `WangLandau::accept`:
`exp(g(old_e) - g(new_e))` when both lookups succeed, else `0`. -/
def pAcc (rexp : ℚ → ℚ) (g : Histogram) (old_e new_e : ℚ) : ℚ :=
  match g.at' old_e, g.at' new_e with
  | some o, some n => rexp (o - n)
  | _, _ => 0

/-- Embeds the decision part of `WangLandau::accept`: with draw `u`, the move
is undone and the energy reverts to `old_e` exactly when `p_acc < u`. The
second component records whether `undo` was called. -/
def accept (rexp : ℚ → ℚ) (g : Histogram) (old_e new_e u : ℚ) : ℚ × Bool :=
  if pAcc rexp g old_e new_e < u then (old_e, true) else (new_e, false)

/-- One proposal step shared by all three phases of `WangLandau::run`:
read `old_e`, let the model change, read the proposed energy, decide via
`accept`, bump `tries` and (if the resulting energy equals `old_e`) `rejects`,
and update `g` (by `lnf`) and/or `h` as the phase dictates. -/
def wlMove {σ : Type} (rexp : ℚ → ℚ) (M : Model σ) (doG doH : Bool)
    (s : WLState σ) : WLState σ :=
  let old_e := M.value s.model
  let c := M.change s.model s.rng
  let e1 := M.value c.1
  let d := c.2.next
  let a := accept rexp s.g old_e e1 d.1
  let new_e := a.1
  { model := if a.2 then M.undo c.1 else c.1
    rng := d.2
    g := if doG then s.g.add new_e s.lnf else s.g
    h := if doH then s.h.count new_e else s.h
    tries := s.tries + 1
    rejects := s.rejects + (if new_e = old_e then 1 else 0)
    t := s.t
    lnf := s.lnf }

/-- Iterate a state transformer. -/
def rep {α : Type} (f : α → α) : ℕ → α → α
  | 0, s => s
  | n + 1, s => rep f n (f s)

/-- A group of `sweep` proposal steps (`for _ in 0..self.sweep`). -/
def iterMoves {σ : Type} (rexp : ℚ → ℚ) (M : Model σ) (doG doH : Bool)
    (sweep : ℕ) : WLState σ → WLState σ :=
  rep (wlMove rexp M doG doH) sweep

/-- One phase-1 inner iteration: a sweep of moves updating both `g` and `h`,
then `t += 1`. -/
def sweepTick {σ : Type} (rexp : ℚ → ℚ) (M : Model σ) (sweep : ℕ)
    (s : WLState σ) : WLState σ :=
  let s1 := iterMoves rexp M true true sweep s
  { s1 with t := s1.t + 1 }

/-- The phase-1 batch `for _ in 0..initial_num_iterations` with the source's
hard-coded `initial_num_iterations = 1000`. -/
def batch {σ : Type} (rexp : ℚ → ℚ) (M : Model σ) (sweep : ℕ) :
    WLState σ → WLState σ :=
  rep (sweepTick rexp M sweep) 1000

/-- The phase-1 flatness loop `while self.h.min() == 0.` with its emergency
branch: after each batch, if `lnf` is still `1` and `lnf_final > 0.2/t`, trim
both histograms (`none` on a trim panic), assert their bounds agree (`none` on
assertion failure), set `lnf = lnf_final` and break. The boolean records
whether the emergency branch fired.  Fuel exhaustion yields `none`. -/
def innerLoop {σ : Type} (rexp : ℚ → ℚ) (M : Model σ) (sweep : ℕ)
    (lnf_final : ℚ) : ℕ → WLState σ → Option (WLState σ × Bool)
  | 0, _ => none
  | fuel + 1, s =>
    if s.h.min = 0 then
      let s1 := batch rexp M sweep s
      if s1.lnf = 1 ∧ 1 / 5 / (s1.t : ℚ) < lnf_final then
        match s1.g.trim, s1.h.trim with
        | some g', some h' =>
          if g'.bounds = h'.bounds then
            some ({ s1 with g := g', h := h', lnf := lnf_final }, true)
          else none
        | _, _ => none
      else innerLoop rexp M sweep lnf_final fuel s1
    else some (s, false)

/-- Phase 1 of `WangLandau::run`, `while t < 10 || lnf > 1./t`: run the
flatness loop, then reset `h` and halve `lnf` — the source performs the reset
and the halving even when the flatness loop was left through the emergency
`break`. The boolean records whether the emergency branch fired anywhere. -/
def phase1 {σ : Type} (rexp : ℚ → ℚ) (M : Model σ) (sweep : ℕ)
    (lnf_final : ℚ) : ℕ → WLState σ → Option (WLState σ × Bool)
  | 0, _ => none
  | fuel + 1, s =>
    if s.t < 10 ∨ 1 / (s.t : ℚ) < s.lnf then
      match innerLoop rexp M sweep lnf_final (fuel + 1) s with
      | none => none
      | some (s1, em) =>
        (phase1 rexp M sweep lnf_final fuel
            { s1 with h := s1.h.reset, lnf := s1.lnf / 2 }).map
          fun p => (p.1, em || p.2)
    else some (s, false)

/-- Phase 2 of `WangLandau::run`, `while lnf > lnf_final`: set `lnf = 1/t`,
run a sweep of moves updating only `g`, and advance `t`. The second component
counts how many times the loop body executed. -/
def phase2 {σ : Type} (rexp : ℚ → ℚ) (M : Model σ) (sweep : ℕ)
    (lnf_final : ℚ) : ℕ → WLState σ → Option (WLState σ × ℕ)
  | 0, s => if lnf_final < s.lnf then none else some (s, 0)
  | fuel + 1, s =>
    if lnf_final < s.lnf then
      let s1 := { s with lnf := 1 / (s.t : ℚ) }
      let s2 := iterMoves rexp M true false sweep s1
      let s3 := { s2 with t := s2.t + 1 }
      (phase2 rexp M sweep lnf_final fuel s3).map fun p => (p.1, p.2 + 1)
    else some (s, 0)

/-- Phase 3 of `WangLandau::run`: `n` outer steps of a sweep of moves that
update only the visit histogram `h`. The caller passes `n = 2*t`. -/
def phase3Iter {σ : Type} (rexp : ℚ → ℚ) (M : Model σ) (sweep : ℕ) :
    ℕ → WLState σ → WLState σ :=
  rep (iterMoves rexp M false true sweep)

/-- Embeds `WangLandau::find_start`: walk the model until its energy is
strictly inside the window, undoing moves that go further away. The source
loop is unbounded; fuel exhaustion yields `none`. -/
def findStart {σ : Type} (M : Model σ) (low high : ℚ) :
    ℕ → σ × Rng → Option (σ × Rng)
  | 0, _ => none
  | fuel + 1, (m, r) =>
    let old_e := M.value m
    let c := M.change m r
    let new_e := M.value c.1
    let m2 := if (new_e < low ∧ new_e < old_e) ∨ (high < new_e ∧ old_e < new_e)
      then M.undo c.1 else c.1
    if low < new_e ∧ new_e < high then some (m2, c.2)
    else findStart M low high fuel (m2, c.2)

/-- The finalisation loop `g[j] += h[j] / h.mean()` removing the entropic
sampling bias. -/
def finalizeG (g h : Histogram) : Histogram :=
  { g with histogram := List.zipWith (fun a b => a + b / h.mean) g.histogram h.histogram }

/-- The state at the start of phase 1: the model and RNG left by `find_start`,
both histograms fresh, `tries = rejects = 0`, `t = 0` and `lnf = 1`, exactly
as the locals of `WangLandau::run` are initialised. -/
def initWL {σ : Type} (g0 : Histogram) (mr : σ × Rng) : WLState σ :=
  ⟨mr.1, mr.2, g0, g0, 0, 0, 0, 1⟩

/-- The run up to the end of phase 2: build the histograms (`new` panics when
`low >= high`), find a starting configuration, then phases 1 and 2. Returns
the state at the end of phase 2 together with the number of phase-2 outer
iterations. -/
def afterPhase2 {σ : Type} (rexp : ℚ → ℚ) (M : Model σ) (low high : ℚ)
    (bins sweep : ℕ) (lnf_final : ℚ) (fuel : ℕ) (m : σ) (r : Rng) :
    Option (WLState σ × ℕ) :=
  (Histogram.new low high bins).bind fun g0 =>
    (findStart M low high fuel (m, r)).bind fun mr =>
      (phase1 rexp M sweep lnf_final fuel (initWL g0 mr)).bind fun p =>
        phase2 rexp M sweep lnf_final fuel p.1

/-- The tail of `WangLandau::run` from the end of phase 2: `2*t` outer steps
of entropic sampling (phase 3) followed by the bias-removal loop; the result
is the returned `(tries, rejects)` pair and the corrected `g`. -/
def finishRun {σ : Type} (rexp : ℚ → ℚ) (M : Model σ) (sweep : ℕ)
    (s2 : WLState σ) : (ℕ × ℕ) × Histogram :=
  let s3 := phase3Iter rexp M sweep (2 * s2.t) s2
  ((s3.tries, s3.rejects), finalizeG s3.g s3.h)

/-- Embeds `WangLandau::run` end to end: phases 1 and 2, then `2*t` outer
steps of entropic sampling, then bias removal. Returns the `(tries, rejects)`
pair of the source together with the corrected `g` that is written out. -/
def run {σ : Type} (rexp : ℚ → ℚ) (M : Model σ) (low high : ℚ)
    (bins sweep : ℕ) (lnf_final : ℚ) (fuel : ℕ) (m : σ) (r : Rng) :
    Option ((ℕ × ℕ) × Histogram) :=
  (afterPhase2 rexp M low high bins sweep lnf_final fuel m r).map fun p =>
    finishRun rexp M sweep p.1

/-- A concrete exponential for witnesses: constantly `1` (positive, as the
real exponential is). -/
def rexp1 : ℚ → ℚ := fun _ => 1

/-- A concrete model for witnesses: the energy is constantly `1`, `change`
steps a counter and consumes no randomness, `undo` steps it back. -/
def CM : Model ℕ :=
  ⟨fun _ => 1, fun s r => (s + 1, r), fun s => s - 1⟩

/-- The all-zero random stream at cursor `p`: every draw is `0`. -/
def crng (p : ℕ) : Rng :=
  ⟨fun _ => 0, p⟩

/-- A Wang-Landau state over the constant model `CM` with window `(0,2)` and
one bin holding `x` (in `g`) and `y` (in `h`). -/
def cState (m p : ℕ) (x y : ℚ) (tr rj t : ℕ) (lnf : ℚ) : WLState ℕ :=
  ⟨m, crng p, ⟨0, 2, 1, [x]⟩, ⟨0, 2, 1, [y]⟩, tr, rj, t, lnf⟩

lemma cMove_tt (m p : ℕ) (x y : ℚ) (tr rj t : ℕ) (lnf : ℚ) :
    wlMove rexp1 CM true true (cState m p x y tr rj t lnf)
      = cState (m+1) (p+1) (x+lnf) (y+1) (tr+1) (rj+1) t lnf := by
  simp [wlMove, cState, CM, rexp1, accept, pAcc, Histogram.at', Histogram.add,
    Histogram.count, Histogram.binIdx, binIndex, Rng.next, crng]
  norm_num

lemma cMove_ft (m p : ℕ) (x y : ℚ) (tr rj t : ℕ) (lnf : ℚ) :
    wlMove rexp1 CM false true (cState m p x y tr rj t lnf)
      = cState (m+1) (p+1) x (y+1) (tr+1) (rj+1) t lnf := by
  simp [wlMove, cState, CM, rexp1, accept, pAcc, Histogram.at', Histogram.add,
    Histogram.count, Histogram.binIdx, binIndex, Rng.next, crng]
  norm_num

lemma cRep_tt (n : ℕ) : ∀ (m p : ℕ) (x y : ℚ) (tr rj t : ℕ) (lnf : ℚ),
    rep (wlMove rexp1 CM true true) n (cState m p x y tr rj t lnf)
      = cState (m+n) (p+n) (x+n*lnf) (y+n) (tr+n) (rj+n) t lnf := by
  induction n with
  | zero => intro m p x y tr rj t lnf; simp [rep]
  | succ n ih =>
    intro m p x y tr rj t lnf
    show rep (wlMove rexp1 CM true true) n
        (wlMove rexp1 CM true true (cState m p x y tr rj t lnf)) = _
    rw [cMove_tt, ih]
    congr 1
    all_goals first | omega | (push_cast; ring_nf)

lemma cTick (m p : ℕ) (x y : ℚ) (tr rj t : ℕ) (lnf : ℚ) :
    sweepTick rexp1 CM 1 (cState m p x y tr rj t lnf)
      = cState (m+1) (p+1) (x+lnf) (y+1) (tr+1) (rj+1) (t+1) lnf := by
  simp only [sweepTick, iterMoves, cRep_tt 1]
  simp only [cState]
  congr 1
  all_goals first | omega | (push_cast; ring_nf)

lemma cBatchRep (k : ℕ) : ∀ (m p : ℕ) (x y : ℚ) (tr rj t : ℕ) (lnf : ℚ),
    rep (sweepTick rexp1 CM 1) k (cState m p x y tr rj t lnf)
      = cState (m+k) (p+k) (x+k*lnf) (y+k) (tr+k) (rj+k) (t+k) lnf := by
  induction k with
  | zero => intro m p x y tr rj t lnf; simp [rep]
  | succ k ih =>
    intro m p x y tr rj t lnf
    show rep (sweepTick rexp1 CM 1) k
        (sweepTick rexp1 CM 1 (cState m p x y tr rj t lnf)) = _
    rw [cTick, ih]
    congr 1
    all_goals first | omega | (push_cast; ring_nf)

lemma cBatch : batch rexp1 CM 1 (cState 1 0 0 0 0 0 0 1)
    = cState 1001 1000 1000 1000 1000 1000 1000 1 := by
  show rep (sweepTick rexp1 CM 1) 1000 (cState 1 0 0 0 0 0 0 1) = _
  rw [cBatchRep 1000]
  norm_num

unseal Rat.add Rat.mul Rat.inv Rat.sub in
lemma cTrimG : Histogram.trim ⟨0, 2, 1, [1000]⟩ = some ⟨0, 2, 1, [1000]⟩ := by decide

lemma cInner : innerLoop rexp1 CM 1 (1/1000) 3 (cState 1 0 0 0 0 0 0 1)
    = some (cState 1001 1000 1000 1000 1000 1000 1000 (1/1000), true) := by
  show innerLoop rexp1 CM 1 (1/1000) (2+1) (cState 1 0 0 0 0 0 0 1) = _
  rw [innerLoop]
  rw [if_pos (by norm_num [cState, Histogram.min] : (cState 1 0 0 0 0 0 0 1).h.min = 0)]
  simp only [cBatch]
  rw [if_pos (by constructor <;> norm_num [cState] :
    (cState 1001 1000 1000 1000 1000 1000 1000 1).lnf = 1 ∧
      1/5/((cState 1001 1000 1000 1000 1000 1000 1000 1).t : ℚ) < 1/1000)]
  simp only [show (cState 1001 1000 1000 1000 1000 1000 1000 1).g = ⟨0, 2, 1, [1000]⟩ from rfl,
    show (cState 1001 1000 1000 1000 1000 1000 1000 1).h = ⟨0, 2, 1, [1000]⟩ from rfl, cTrimG]
  rw [if_pos trivial]
  rfl

unseal Rat.add Rat.mul Rat.inv Rat.sub in
lemma cPhase1 : phase1 rexp1 CM 1 (1/1000) 3 (cState 1 0 0 0 0 0 0 1)
    = some (cState 1001 1000 1000 0 1000 1000 1000 (1/2000), true) := by
  show phase1 rexp1 CM 1 (1/1000) (2+1) (cState 1 0 0 0 0 0 0 1) = _
  rw [phase1]
  rw [if_pos (Or.inl (by norm_num [cState]))]
  rw [show (2:ℕ)+1 = 3 from rfl, cInner]
  show Option.map (fun p => (p.1, true || p.2))
      (phase1 rexp1 CM 1 (1/1000) 2 (cState 1001 1000 1000 0 1000 1000 1000 (1/2000))) = _
  show Option.map (fun p => (p.1, true || p.2))
      (phase1 rexp1 CM 1 (1/1000) (1+1) (cState 1001 1000 1000 0 1000 1000 1000 (1/2000))) = _
  rw [phase1]
  rw [if_neg (by norm_num [cState] :
    ¬((cState 1001 1000 1000 0 1000 1000 1000 (1/2000)).t < 10 ∨
      1/((cState 1001 1000 1000 0 1000 1000 1000 (1/2000)).t : ℚ)
        < (cState 1001 1000 1000 0 1000 1000 1000 (1/2000)).lnf))]
  rfl

lemma cFind : findStart CM 0 2 3 (0, crng 0) = some (1, crng 0) := by
  show findStart CM 0 2 (2+1) (0, crng 0) = _
  rw [findStart]
  norm_num [CM, crng]

lemma cNew : Histogram.new 0 2 1 = some ⟨0, 2, 1, [(0:ℚ)]⟩ := by
  norm_num [Histogram.new, List.replicate]

lemma cInitWL : initWL ⟨0, 2, 1, [(0:ℚ)]⟩ ((1:ℕ), crng 0) = cState 1 0 0 0 0 0 0 1 := rfl

lemma cPhase2 : phase2 rexp1 CM 1 (1/1000) 3 (cState 1001 1000 1000 0 1000 1000 1000 (1/2000))
    = some (cState 1001 1000 1000 0 1000 1000 1000 (1/2000), 0) := by
  show phase2 rexp1 CM 1 (1/1000) (2+1) (cState 1001 1000 1000 0 1000 1000 1000 (1/2000)) = _
  rw [phase2]
  rw [if_neg (by norm_num [cState] :
    ¬((1:ℚ)/1000 < (cState 1001 1000 1000 0 1000 1000 1000 (1/2000)).lnf))]

lemma cAfter : afterPhase2 rexp1 CM 0 2 1 1 (1/1000) 3 0 (crng 0)
    = some (cState 1001 1000 1000 0 1000 1000 1000 (1/2000), 0) := by
  unfold afterPhase2
  rw [cNew]
  refine Eq.trans (Option.some_bind _ _ :
    _ = (findStart CM 0 2 3 ((0:ℕ), crng 0)).bind fun mr =>
      (phase1 rexp1 CM 1 (1/1000) 3 (initWL ⟨0,2,1,[(0:ℚ)]⟩ mr)).bind fun p =>
        phase2 rexp1 CM 1 (1/1000) 3 p.1) ?_
  rw [cFind]
  refine Eq.trans (Option.some_bind _ _ :
    _ = (phase1 rexp1 CM 1 (1/1000) 3 (initWL ⟨0,2,1,[(0:ℚ)]⟩ ((1:ℕ), crng 0))).bind fun p =>
      phase2 rexp1 CM 1 (1/1000) 3 p.1) ?_
  rw [cInitWL, cPhase1]
  refine Eq.trans (Option.some_bind _ _ :
    _ = phase2 rexp1 CM 1 (1/1000) 3
      ((cState 1001 1000 1000 0 1000 1000 1000 (1/2000), true) : WLState ℕ × Bool).1) ?_
  exact cPhase2

lemma cPhase3 (n : ℕ) : ∀ (m p : ℕ) (x y : ℚ) (tr rj t : ℕ) (lnf : ℚ),
    phase3Iter rexp1 CM 1 n (cState m p x y tr rj t lnf)
      = cState (m+n) (p+n) x (y+n) (tr+n) (rj+n) t lnf := by
  induction n with
  | zero => intro m p x y tr rj t lnf; simp [phase3Iter, rep]
  | succ n ih =>
    intro m p x y tr rj t lnf
    show rep (iterMoves rexp1 CM false true 1) n
        (iterMoves rexp1 CM false true 1 (cState m p x y tr rj t lnf)) = _
    rw [show iterMoves rexp1 CM false true 1 (cState m p x y tr rj t lnf)
        = cState (m+1) (p+1) x (y+1) (tr+1) (rj+1) t lnf from cMove_ft m p x y tr rj t lnf]
    rw [show rep (iterMoves rexp1 CM false true 1) n
          (cState (m+1) (p+1) x (y+1) (tr+1) (rj+1) t lnf)
        = cState (m+1+n) (p+1+n) x (y+1+n) (tr+1+n) (rj+1+n) t lnf from
      ih (m+1) (p+1) x (y+1) (tr+1) (rj+1) t lnf]
    congr 1
    all_goals first | rfl | omega | (push_cast; ring_nf)

lemma getD_set_self : ∀ (l : List ℚ) (i : ℕ) (x d : ℚ), i < l.length →
    (l.set i x).getD i d = x := by
  intro l
  induction l with
  | nil => intro i x d h; simp at h
  | cons a l ih =>
    intro i x d h
    cases i with
    | zero => simp
    | succ i => simpa using ih i x d (by simpa using h)

lemma getD_set_ne : ∀ (l : List ℚ) (i j : ℕ) (x d : ℚ), i ≠ j →
    (l.set i x).getD j d = l.getD j d := by
  intro l
  induction l with
  | nil => intro i j x d _; simp
  | cons a l ih =>
    intro i j x d hij
    cases i with
    | zero =>
      cases j with
      | zero => exact absurd rfl hij
      | succ j => simp
    | succ i =>
      cases j with
      | zero => simp
      | succ j => simpa using ih i j x d (by omega)

lemma binIndex_lt (low high v : ℚ) (bins : ℕ) (h1 : low < v) (h2 : v < high)
    (hb : 0 < bins) : binIndex low high bins v < bins := by
  unfold binIndex
  have hpos : (0:ℚ) < high - low := by linarith
  have hr1 : (v - low)/(high - low) < 1 := (div_lt_one hpos).mpr (by linarith)
  have hr0 : 0 < (v - low)/(high - low) := div_pos (by linarith) hpos
  have hbq : (0:ℚ) < (bins:ℚ) := by exact_mod_cast hb
  have hlt : (v - low)/(high - low) * (bins:ℚ) < (bins:ℚ) := by
    calc (v - low)/(high - low) * (bins:ℚ) < 1 * (bins:ℚ) :=
          mul_lt_mul_of_pos_right hr1 hbq
    _ = (bins:ℚ) := one_mul _
  have hfl : ⌊(v - low)/(high - low) * (bins:ℚ)⌋ < (bins:ℤ) :=
    Int.floor_lt.mpr (by exact_mod_cast hlt)
  have hfl0 : (0:ℤ) ≤ ⌊(v - low)/(high - low) * (bins:ℚ)⌋ :=
    Int.floor_nonneg.mpr (le_of_lt (mul_pos hr0 hbq))
  omega

lemma add_fields (h : Histogram) (v a : ℚ) :
    (h.add v a).low = h.low ∧ (h.add v a).high = h.high ∧ (h.add v a).bins = h.bins ∧
      (h.add v a).histogram.length = h.histogram.length := by
  unfold Histogram.add
  split
  · refine ⟨rfl, rfl, rfl, ?_⟩
    simp
  · exact ⟨rfl, rfl, rfl, rfl⟩

lemma binIdx_add (h : Histogram) (v a w : ℚ) : (h.add v a).binIdx w = h.binIdx w := by
  unfold Histogram.add
  split <;> rfl

lemma getD_add (h : Histogram) (hw : h.histogram.length = h.bins) (hb : 0 < h.bins)
    (v w a : ℚ) :
    (h.add w a).histogram.getD (h.binIdx v) 0
      = h.histogram.getD (h.binIdx v) 0
        + (if h.low < w ∧ w < h.high ∧ h.binIdx w = h.binIdx v then a else 0) := by
  unfold Histogram.add
  by_cases hw1 : h.low < w ∧ w < h.high
  · rw [if_pos hw1]
    by_cases hsame : h.binIdx w = h.binIdx v
    · rw [if_pos ⟨hw1.1, hw1.2, hsame⟩]
      show (h.histogram.set (h.binIdx w) _).getD (h.binIdx v) 0 = _
      rw [← hsame]
      rw [getD_set_self _ _ _ _ (by rw [hw]; exact binIndex_lt _ _ _ _ hw1.1 hw1.2 hb)]
    · rw [if_neg (by tauto)]
      show (h.histogram.set (h.binIdx w) _).getD (h.binIdx v) 0 = _
      rw [getD_set_ne _ _ _ _ _ hsame]
      ring
  · rw [if_neg hw1, if_neg (by tauto)]
    ring

lemma at_eq (h : Histogram) (v : ℚ) (h1 : h.low < v) (h2 : v < h.high) :
    h.at' v = some (h.histogram.getD (h.binIdx v) 0) := by
  unfold Histogram.at'
  rw [if_pos ⟨h1, h2⟩]

lemma at_applyOps : ∀ (ops : List (ℚ × ℚ)) (h : Histogram) (v : ℚ),
    h.histogram.length = h.bins → 0 < h.bins → h.low < v → v < h.high →
    (applyOps h ops).at' v
      = some (h.histogram.getD (h.binIdx v) 0
          + accumulated h.low h.high h.bins v ops) := by
  intro ops
  induction ops with
  | nil =>
    intro h v hw hb h1 h2
    show h.at' v = _
    rw [at_eq h v h1 h2]
    norm_num [accumulated]
  | cons p rest ih =>
    intro h v hw hb h1 h2
    show (applyOps (h.add p.1 p.2) rest).at' v = _
    obtain ⟨hl, hh, hbn, hlen⟩ := add_fields h p.1 p.2
    have ihx := ih (h.add p.1 p.2) v (by rw [hlen, hbn, hw]) (by rw [hbn]; exact hb)
      (by rw [hl]; exact h1) (by rw [hh]; exact h2)
    rw [ihx]
    rw [show (h.add p.1 p.2).binIdx v = h.binIdx v from binIdx_add h p.1 p.2 v]
    rw [getD_add h hw hb v p.1 p.2]
    rw [show accumulated (h.add p.1 p.2).low (h.add p.1 p.2).high (h.add p.1 p.2).bins v rest
        = accumulated h.low h.high h.bins v rest from by rw [hl, hh, hbn]]
    simp only [accumulated, Histogram.binIdx]
    congr 1
    ring

lemma firstPos_some : ∀ (l : List ℚ) (i : ℕ), firstPos l = some i →
    i < l.length ∧ ∀ x ∈ l.take i, x ≤ 0 := by
  intro l
  induction l with
  | nil => intro i h; simp [firstPos] at h
  | cons a l ih =>
    intro i h
    by_cases ha : 0 < a
    · rw [firstPos, if_pos ha] at h
      obtain rfl : (0:ℕ) = i := by simpa using h
      exact ⟨by simp, by simp⟩
    · rw [firstPos, if_neg ha] at h
      obtain ⟨j, hj, rfl⟩ : ∃ j, firstPos l = some j ∧ j + 1 = i := by
        simpa [Option.map_eq_some'] using h
      obtain ⟨hlen, htake⟩ := ih j hj
      refine ⟨by simpa using hlen, ?_⟩
      intro x hx
      rw [List.take_succ_cons] at hx
      rcases List.mem_cons.mp hx with rfl | hx
      · exact le_of_not_lt ha
      · exact htake x hx

lemma firstPos_none (l : List ℚ) (h : ∀ x ∈ l, ¬ 0 < x) : firstPos l = none := by
  induction l with
  | nil => rfl
  | cons a l ih =>
    rw [firstPos, if_neg (h a (by simp))]
    rw [ih fun x hx => h x (by simp [hx])]
    rfl

lemma trim_none (h : Histogram) (hfp : firstPos h.histogram = none) : h.trim = none := by
  unfold Histogram.trim
  rw [hfp]

lemma trim_none2 (h : Histogram) (lb : ℕ) (hfp : firstPos h.histogram = some lb)
    (hfp2 : firstPos (h.histogram.drop lb).reverse = none) : h.trim = none := by
  unfold Histogram.trim
  rw [hfp]
  simp only [hfp2]

lemma trim_eq (h : Histogram) (lb rb : ℕ)
    (hfp : firstPos h.histogram = some lb)
    (hfp2 : firstPos (h.histogram.drop lb).reverse = some rb) :
    h.trim = some ⟨h.low + (lb:ℚ)*(h.high - h.low)/(h.bins:ℚ),
      (h.low + (lb:ℚ)*(h.high - h.low)/(h.bins:ℚ))
        + (((h.bins - lb) - rb : ℕ) : ℚ)
          * (h.high - (h.low + (lb:ℚ)*(h.high - h.low)/(h.bins:ℚ)))/((h.bins - lb : ℕ) : ℚ),
      (h.bins - lb) - rb,
      (h.histogram.drop lb).take ((h.bins - lb) - rb)⟩ := by
  unfold Histogram.trim
  rw [hfp]
  simp only [hfp2]

lemma trim_spec (h h' : Histogram) (hw : h.histogram.length = h.bins)
    (hnn : ∀ x ∈ h.histogram, 0 ≤ x) (ht : h.trim = some h') :
    h'.histogram.sum = h.histogram.sum ∧ h'.bins ≤ h.bins ∧
      h'.histogram.length = h'.bins ∧
      ∃ lb rb, lb + rb + h'.bins = h.bins ∧
        h'.low = h.low + (lb:ℚ) * (h.high - h.low) / (h.bins:ℚ) ∧
        h'.high = h.high - (rb:ℚ) * (h.high - h.low) / (h.bins:ℚ) := by
  cases hfp : firstPos h.histogram with
  | none => rw [trim_none h hfp] at ht; exact absurd ht (by simp)
  | some lb =>
    cases hfp2 : firstPos (h.histogram.drop lb).reverse with
    | none => rw [trim_none2 h lb hfp hfp2] at ht; exact absurd ht (by simp)
    | some rb =>
      rw [trim_eq h lb rb hfp hfp2] at ht
      obtain rfl : _ = h' := Option.some.inj ht
      obtain ⟨hlb, htake⟩ := firstPos_some _ _ hfp
      obtain ⟨hrb, htake2⟩ := firstPos_some _ _ hfp2
      rw [hw] at hlb
      rw [List.length_reverse, List.length_drop, hw] at hrb
      have hsum1 : (h.histogram.take lb).sum + (h.histogram.drop lb).sum
          = h.histogram.sum := by
        rw [← List.sum_append, List.take_append_drop]
      have hz1 : (h.histogram.take lb).sum = 0 :=
        List.sum_eq_zero fun x hx =>
          le_antisymm (htake x hx) (hnn x (List.mem_of_mem_take hx))
      have hsum2 : ((h.histogram.drop lb).take (h.bins - lb - rb)).sum
          + ((h.histogram.drop lb).drop (h.bins - lb - rb)).sum
          = (h.histogram.drop lb).sum := by
        rw [← List.sum_append, List.take_append_drop]
      have hdz : ∀ x ∈ (h.histogram.drop lb).drop (h.bins - lb - rb), x ≤ 0 := by
        intro x hx
        apply htake2
        rw [List.take_reverse]
        rw [List.length_drop, hw]
        exact List.mem_reverse.mpr hx
      have hz2 : ((h.histogram.drop lb).drop (h.bins - lb - rb)).sum = 0 :=
        List.sum_eq_zero fun x hx =>
          le_antisymm (hdz x hx)
            (hnn x (List.mem_of_mem_drop (List.mem_of_mem_drop hx)))
      dsimp only
      refine ⟨by linarith, by omega, ?_, lb, rb, by omega, rfl, ?_⟩
      · show ((h.histogram.drop lb).take (h.bins - lb - rb)).length = _
        rw [List.length_take, List.length_drop, hw]
        omega
      · show h.low + (lb:ℚ)*(h.high - h.low)/(h.bins:ℚ)
            + (((h.bins - lb) - rb : ℕ) : ℚ)
              * (h.high - (h.low + (lb:ℚ)*(h.high - h.low)/(h.bins:ℚ)))/((h.bins - lb : ℕ) : ℚ)
          = h.high - (rb:ℚ) * (h.high - h.low) / (h.bins:ℚ)
        have hbpos : 0 < h.bins := by omega
        have hc1 : ((h.bins - lb : ℕ) : ℚ) = (h.bins : ℚ) - (lb : ℚ) := by
          push_cast [Nat.cast_sub (by omega : lb ≤ h.bins)]; ring
        have hc2 : (((h.bins - lb) - rb : ℕ) : ℚ) = (h.bins : ℚ) - (lb : ℚ) - (rb : ℚ) := by
          push_cast [Nat.cast_sub (by omega : rb ≤ h.bins - lb),
            Nat.cast_sub (by omega : lb ≤ h.bins)]
          ring
        rw [hc1, hc2]
        have hb0 : (h.bins : ℚ) ≠ 0 := by
          exact_mod_cast Nat.pos_iff_ne_zero.mp hbpos
        have hbl0 : (h.bins : ℚ) - (lb : ℚ) ≠ 0 := by
          have : (lb : ℚ) < (h.bins : ℚ) := by exact_mod_cast hlb
          linarith
        field_simp
        ring

lemma reset_fields (h : Histogram) :
    h.reset.low = h.low ∧ h.reset.high = h.high ∧ h.reset.bins = h.bins ∧
      h.reset.bounds = h.bounds ∧ h.reset.histogram.length = h.histogram.length :=
  ⟨rfl, rfl, rfl, rfl, by simp [Histogram.reset]⟩

lemma reset_all_zero (h : Histogram) : ∀ x ∈ h.reset.histogram, x = 0 := by
  intro x hx
  obtain ⟨y, _, rfl⟩ := List.mem_map.mp hx
  rfl

lemma reset_mean (h : Histogram) : h.reset.mean = 0 := by
  have hs : (h.histogram.map fun _ => (0:ℚ)).sum = 0 := by
    induction h.histogram with
    | nil => rfl
    | cons a l ih => simp [ih]
  simp [Histogram.mean, Histogram.reset, hs]

lemma foldl_min_zeros : ∀ (l : List ℚ), (∀ x ∈ l, x = 0) → l.foldl Min.min (0:ℚ) = 0 := by
  intro l
  induction l with
  | nil => intro _; rfl
  | cons a l ih =>
    intro hz
    have ha : a = 0 := hz a (by simp)
    show (l.foldl Min.min (Min.min 0 a)) = 0
    rw [ha]
    rw [show Min.min (0:ℚ) 0 = 0 from min_self 0]
    exact ih fun x hx => hz x (by simp [hx])

lemma min_all_zero (h : Histogram) (hlen : 0 < h.histogram.length)
    (hz : ∀ x ∈ h.histogram, x = 0) : h.min = 0 := by
  unfold Histogram.min
  cases hl : h.histogram with
  | nil => exact absurd hlen (by rw [hl]; simp)
  | cons a l =>
    simp only [hl]
    rw [hz a (hl.symm ▸ List.mem_cons_self a l)]
    exact foldl_min_zeros l fun x hx => hz x (hl.symm ▸ List.mem_cons_of_mem a hx)

lemma reset_min (h : Histogram) (hlen : 0 < h.histogram.length) : h.reset.min = 0 :=
  min_all_zero h.reset (by rw [(reset_fields h).2.2.2.2]; exact hlen) (reset_all_zero h)

lemma wlMove_tries {σ : Type} (rexp : ℚ → ℚ) (M : Model σ) (dG dH : Bool) (s : WLState σ) :
    (wlMove rexp M dG dH s).tries = s.tries + 1 := rfl

lemma wlMove_rejects_le {σ : Type} (rexp : ℚ → ℚ) (M : Model σ) (dG dH : Bool)
    (s : WLState σ) : (wlMove rexp M dG dH s).rejects ≤ s.rejects + 1 := by
  unfold wlMove
  dsimp only
  split <;> omega

lemma wlMove_inv {σ : Type} (rexp : ℚ → ℚ) (M : Model σ) (dG dH : Bool) (s : WLState σ)
    (h : s.rejects ≤ s.tries) :
    (wlMove rexp M dG dH s).rejects ≤ (wlMove rexp M dG dH s).tries := by
  rw [wlMove_tries]
  exact le_trans (wlMove_rejects_le rexp M dG dH s) (by omega)

lemma wlMove_g_false {σ : Type} (rexp : ℚ → ℚ) (M : Model σ) (dH : Bool) (s : WLState σ) :
    (wlMove rexp M false dH s).g = s.g := rfl

lemma wlMove_t {σ : Type} (rexp : ℚ → ℚ) (M : Model σ) (dG dH : Bool) (s : WLState σ) :
    (wlMove rexp M dG dH s).t = s.t := rfl

lemma wlMove_lnf {σ : Type} (rexp : ℚ → ℚ) (M : Model σ) (dG dH : Bool) (s : WLState σ) :
    (wlMove rexp M dG dH s).lnf = s.lnf := rfl

lemma rep_pres {α : Type} (f : α → α) (P : α → Prop) (hf : ∀ s, P s → P (f s)) :
    ∀ (n : ℕ) (s : α), P s → P (rep f n s) := by
  intro n
  induction n with
  | zero => intro s hs; exact hs
  | succ n ih => intro s hs; exact ih (f s) (hf s hs)

lemma rep_move_tries {σ : Type} (rexp : ℚ → ℚ) (M : Model σ) (dG dH : Bool) :
    ∀ (n : ℕ) (s : WLState σ),
      (rep (wlMove rexp M dG dH) n s).tries = s.tries + n := by
  intro n
  induction n with
  | zero => intro s; rfl
  | succ n ih =>
    intro s
    show (rep (wlMove rexp M dG dH) n (wlMove rexp M dG dH s)).tries = _
    rw [ih, wlMove_tries]
    omega

lemma iterMoves_tries {σ : Type} (rexp : ℚ → ℚ) (M : Model σ) (dG dH : Bool)
    (sweep : ℕ) (s : WLState σ) :
    (iterMoves rexp M dG dH sweep s).tries = s.tries + sweep :=
  rep_move_tries rexp M dG dH sweep s

lemma iterMoves_inv {σ : Type} (rexp : ℚ → ℚ) (M : Model σ) (dG dH : Bool)
    (sweep : ℕ) (s : WLState σ) (h : s.rejects ≤ s.tries) :
    (iterMoves rexp M dG dH sweep s).rejects ≤ (iterMoves rexp M dG dH sweep s).tries :=
  rep_pres (wlMove rexp M dG dH) (fun x => x.rejects ≤ x.tries)
    (fun x hx => wlMove_inv rexp M dG dH x hx) sweep s h

lemma rep_move_lnf {σ : Type} (rexp : ℚ → ℚ) (M : Model σ) (dG dH : Bool) :
    ∀ (n : ℕ) (s : WLState σ), (rep (wlMove rexp M dG dH) n s).lnf = s.lnf := by
  intro n
  induction n with
  | zero => intro s; rfl
  | succ n ih =>
    intro s
    show (rep (wlMove rexp M dG dH) n (wlMove rexp M dG dH s)).lnf = _
    rw [ih, wlMove_lnf]

lemma sweepTick_inv {σ : Type} (rexp : ℚ → ℚ) (M : Model σ) (sweep : ℕ) (s : WLState σ)
    (h : s.rejects ≤ s.tries) :
    (sweepTick rexp M sweep s).rejects ≤ (sweepTick rexp M sweep s).tries :=
  iterMoves_inv rexp M true true sweep s h

lemma sweepTick_lnf {σ : Type} (rexp : ℚ → ℚ) (M : Model σ) (sweep : ℕ) (s : WLState σ) :
    (sweepTick rexp M sweep s).lnf = s.lnf :=
  rep_move_lnf rexp M true true sweep s

lemma batch_inv {σ : Type} (rexp : ℚ → ℚ) (M : Model σ) (sweep : ℕ) (s : WLState σ)
    (h : s.rejects ≤ s.tries) :
    (batch rexp M sweep s).rejects ≤ (batch rexp M sweep s).tries :=
  rep_pres (sweepTick rexp M sweep) (fun x => x.rejects ≤ x.tries)
    (fun x hx => sweepTick_inv rexp M sweep x hx) 1000 s h

lemma rep_tick_lnf {σ : Type} (rexp : ℚ → ℚ) (M : Model σ) (sweep : ℕ) :
    ∀ (n : ℕ) (s : WLState σ), (rep (sweepTick rexp M sweep) n s).lnf = s.lnf := by
  intro n
  induction n with
  | zero => intro s; rfl
  | succ n ih =>
    intro s
    show (rep (sweepTick rexp M sweep) n (sweepTick rexp M sweep s)).lnf = _
    rw [ih, sweepTick_lnf]

lemma batch_lnf {σ : Type} (rexp : ℚ → ℚ) (M : Model σ) (sweep : ℕ) (s : WLState σ) :
    (batch rexp M sweep s).lnf = s.lnf :=
  rep_tick_lnf rexp M sweep 1000 s

lemma innerLoop_some {σ : Type} (rexp : ℚ → ℚ) (M : Model σ) (sweep : ℕ) (lf : ℚ) :
    ∀ (fuel : ℕ) (s s1 : WLState σ) (em : Bool),
      innerLoop rexp M sweep lf fuel s = some (s1, em) →
      (s.rejects ≤ s.tries → s1.rejects ≤ s1.tries) ∧
        (em = false → s1.lnf = s.lnf) ∧
        (em = true → s1.lnf = lf ∧ s1.g.bounds = s1.h.bounds ∧
          ∃ sb : WLState σ, sb.g.trim = some s1.g ∧ sb.h.trim = some s1.h) := by
  intro fuel
  induction fuel with
  | zero => intro s s1 em h; exact absurd h (by rw [innerLoop]; simp)
  | succ fuel ih =>
    intro s s1 em h
    rw [innerLoop] at h
    by_cases h1 : s.h.min = 0
    · rw [if_pos h1] at h
      dsimp only at h
      by_cases h2 : (batch rexp M sweep s).lnf = 1 ∧
          1 / 5 / ((batch rexp M sweep s).t : ℚ) < lf
      · rw [if_pos h2] at h
        rcases htg : (batch rexp M sweep s).g.trim with _ | g' <;> rw [htg] at h
        · exact absurd h (by simp)
        · rcases hth : (batch rexp M sweep s).h.trim with _ | h' <;> rw [hth] at h
          · exact absurd h (by simp)
          · dsimp only at h
            by_cases h3 : g'.bounds = h'.bounds
            · rw [if_pos h3] at h
              obtain ⟨rfl, rfl⟩ : ({ batch rexp M sweep s with g := g', h := h', lnf := lf }
                  = s1) ∧ true = em := by
                have := Option.some.inj h
                exact ⟨congrArg Prod.fst this, congrArg Prod.snd this⟩
              refine ⟨fun hinv => batch_inv rexp M sweep s hinv, ?_, ?_⟩
              · intro hfalse; exact absurd hfalse.symm (by simp)
              · intro _
                exact ⟨rfl, h3, batch rexp M sweep s, htg, hth⟩
            · rw [if_neg h3] at h
              exact absurd h (by simp)
      · rw [if_neg h2] at h
        obtain ⟨hi1, hi2, hi3⟩ := ih (batch rexp M sweep s) s1 em h
        refine ⟨fun hinv => hi1 (batch_inv rexp M sweep s hinv), ?_, hi3⟩
        intro hf
        rw [hi2 hf, batch_lnf]
    · rw [if_neg h1] at h
      obtain ⟨rfl, rfl⟩ : (s = s1) ∧ false = em := by
        have := Option.some.inj h
        exact ⟨congrArg Prod.fst this, congrArg Prod.snd this⟩
      exact ⟨fun hinv => hinv, fun _ => rfl, fun ht => absurd ht.symm (by simp)⟩

lemma phase1_some {σ : Type} (rexp : ℚ → ℚ) (M : Model σ) (sweep : ℕ) (lf : ℚ) :
    ∀ (fuel : ℕ) (s sf : WLState σ) (em : Bool),
      phase1 rexp M sweep lf fuel s = some (sf, em) →
      (s.rejects ≤ s.tries → sf.rejects ≤ sf.tries) ∧
        (em = false → 0 < s.lnf → sf.lnf ≤ s.lnf ∧ 0 < sf.lnf) ∧
        (em = true → 0 < lf → sf.lnf ≤ lf / 2) := by
  intro fuel
  induction fuel with
  | zero => intro s sf em h; exact absurd h (by rw [phase1]; simp)
  | succ fuel ih =>
    intro s sf em h
    rw [phase1] at h
    by_cases h1 : s.t < 10 ∨ 1 / (s.t : ℚ) < s.lnf
    · rw [if_pos h1] at h
      rcases hi : innerLoop rexp M sweep lf (fuel + 1) s with _ | ⟨s2, em2⟩ <;>
        rw [hi] at h
      · exact absurd h (by simp)
      · dsimp only at h
        rcases hp : phase1 rexp M sweep lf fuel
            { s2 with h := s2.h.reset, lnf := s2.lnf / 2 } with _ | ⟨s3, em3⟩ <;>
          rw [hp] at h
        · exact absurd h (by simp)
        · dsimp only [Option.map_some'] at h
          obtain ⟨rfl, hem⟩ : (s3 = sf) ∧ (em2 || em3) = em := by
            have := Option.some.inj h
            exact ⟨congrArg Prod.fst this, congrArg Prod.snd this⟩
          obtain ⟨hiv, hif, hit⟩ := innerLoop_some rexp M sweep lf (fuel + 1) s s2 em2 hi
          obtain ⟨hpv, hpf, hpt⟩ := ih _ s3 em3 hp
          refine ⟨fun hinv => hpv (hiv hinv), ?_, ?_⟩
          · intro hfe hpos
            rw [← hem] at hfe
            obtain ⟨he2, he3⟩ : em2 = false ∧ em3 = false := by
              constructor <;> [skip; skip] <;> cases em2 <;> cases em3 <;>
                simp_all
            have hl2 : s2.lnf = s.lnf := hif he2
            have := hpf he3 (by show 0 < s2.lnf / 2; rw [hl2]; positivity)
            constructor
            · calc s3.lnf ≤ s2.lnf / 2 := this.1
                _ = s.lnf / 2 := by rw [hl2]
                _ ≤ s.lnf := by linarith
            · exact this.2
          · intro hte hpos
            rw [← hem] at hte
            rcases Bool.or_eq_true_iff.mp hte with he2 | he3
            · have h2l : s2.lnf = lf := (hit he2).1
              cases em3 with
              | false =>
                have := hpf rfl (by show 0 < s2.lnf / 2; rw [h2l]; positivity)
                calc s3.lnf ≤ s2.lnf / 2 := this.1
                  _ = lf / 2 := by rw [h2l]
              | true => exact hpt rfl hpos
            · exact hpt he3 hpos
    · rw [if_neg h1] at h
      obtain ⟨rfl, hem⟩ : (s = sf) ∧ false = em := by
        have := Option.some.inj h
        exact ⟨congrArg Prod.fst this, congrArg Prod.snd this⟩
      refine ⟨fun hinv => hinv, fun _ hpos => ⟨le_refl _, hpos⟩, fun hte _ => ?_⟩
      rw [← hem] at hte
      exact absurd hte (by simp)

lemma phase2_zero {σ : Type} (rexp : ℚ → ℚ) (M : Model σ) (sweep : ℕ) (lf : ℚ)
    (fuel : ℕ) (s : WLState σ) (h : s.lnf ≤ lf) :
    phase2 rexp M sweep lf fuel s = some (s, 0) := by
  cases fuel with
  | zero => rw [phase2, if_neg (not_lt.mpr h)]
  | succ fuel => rw [phase2, if_neg (not_lt.mpr h)]

lemma phase2_some {σ : Type} (rexp : ℚ → ℚ) (M : Model σ) (sweep : ℕ) (lf : ℚ) :
    ∀ (fuel : ℕ) (s sf : WLState σ) (k : ℕ),
      phase2 rexp M sweep lf fuel s = some (sf, k) →
      (s.rejects ≤ s.tries → sf.rejects ≤ sf.tries) := by
  intro fuel
  induction fuel with
  | zero =>
    intro s sf k h
    rw [phase2] at h
    by_cases h1 : lf < s.lnf
    · rw [if_pos h1] at h; exact absurd h (by simp)
    · rw [if_neg h1] at h
      obtain rfl : s = sf := congrArg Prod.fst (Option.some.inj h)
      exact fun hinv => hinv
  | succ fuel ih =>
    intro s sf k h
    rw [phase2] at h
    by_cases h1 : lf < s.lnf
    · rw [if_pos h1] at h
      dsimp only at h
      rcases hp : phase2 rexp M sweep lf fuel
          { iterMoves rexp M true false sweep { s with lnf := 1 / (s.t : ℚ) } with
            t := (iterMoves rexp M true false sweep { s with lnf := 1 / (s.t : ℚ) }).t + 1 }
          with _ | ⟨s3, k3⟩ <;> rw [hp] at h
      · exact absurd h (by simp)
      · dsimp only [Option.map_some'] at h
        obtain rfl : s3 = sf := congrArg Prod.fst (Option.some.inj h)
        intro hinv
        refine ih _ s3 k3 hp ?_
        show (iterMoves rexp M true false sweep { s with lnf := 1 / (s.t : ℚ) }).rejects
          ≤ (iterMoves rexp M true false sweep { s with lnf := 1 / (s.t : ℚ) }).tries
        exact iterMoves_inv rexp M true false sweep _ hinv
    · rw [if_neg h1] at h
      obtain rfl : s = sf := congrArg Prod.fst (Option.some.inj h)
      exact fun hinv => hinv

lemma rep_move_g {σ : Type} (rexp : ℚ → ℚ) (M : Model σ) (dH : Bool) :
    ∀ (n : ℕ) (s : WLState σ), (rep (wlMove rexp M false dH) n s).g = s.g := by
  intro n
  induction n with
  | zero => intro s; rfl
  | succ n ih =>
    intro s
    show (rep (wlMove rexp M false dH) n (wlMove rexp M false dH s)).g = _
    rw [ih, wlMove_g_false]

lemma phase3Iter_g {σ : Type} (rexp : ℚ → ℚ) (M : Model σ) (sweep : ℕ) :
    ∀ (n : ℕ) (s : WLState σ), (phase3Iter rexp M sweep n s).g = s.g := by
  intro n
  induction n with
  | zero => intro s; rfl
  | succ n ih =>
    intro s
    show (phase3Iter rexp M sweep n (iterMoves rexp M false true sweep s)).g = _
    rw [ih]
    exact rep_move_g rexp M true sweep s

lemma phase3Iter_tries {σ : Type} (rexp : ℚ → ℚ) (M : Model σ) (sweep : ℕ) :
    ∀ (n : ℕ) (s : WLState σ),
      (phase3Iter rexp M sweep n s).tries = s.tries + n * sweep := by
  intro n
  induction n with
  | zero => intro s; show s.tries = _; omega
  | succ n ih =>
    intro s
    show (phase3Iter rexp M sweep n (iterMoves rexp M false true sweep s)).tries = _
    rw [ih, iterMoves_tries]
    ring

lemma phase3Iter_inv {σ : Type} (rexp : ℚ → ℚ) (M : Model σ) (sweep : ℕ)
    (n : ℕ) (s : WLState σ) (h : s.rejects ≤ s.tries) :
    (phase3Iter rexp M sweep n s).rejects ≤ (phase3Iter rexp M sweep n s).tries :=
  rep_pres (iterMoves rexp M false true sweep) (fun x => x.rejects ≤ x.tries)
    (fun x hx => iterMoves_inv rexp M false true sweep x hx) n s h

lemma afterPhase2_some {σ : Type} (rexp : ℚ → ℚ) (M : Model σ) (low high : ℚ)
    (bins sweep : ℕ) (lf : ℚ) (fuel : ℕ) (m : σ) (r : Rng) (s2 : WLState σ) (k : ℕ)
    (h : afterPhase2 rexp M low high bins sweep lf fuel m r = some (s2, k)) :
    s2.rejects ≤ s2.tries := by
  unfold afterPhase2 at h
  rcases hn : Histogram.new low high bins with _ | g0 <;> rw [hn] at h
  · exact absurd h (by simp)
  · rw [Option.some_bind] at h
    rcases hf : findStart M low high fuel (m, r) with _ | mr <;> rw [hf] at h
    · exact absurd h (by simp)
    · rw [Option.some_bind] at h
      rcases hp : phase1 rexp M sweep lf fuel (initWL g0 mr) with _ | ⟨s1, em⟩ <;>
        rw [hp] at h
      · exact absurd h (by simp)
      · rw [Option.some_bind] at h
        have hinv1 : s1.rejects ≤ s1.tries :=
          (phase1_some rexp M sweep lf fuel (initWL g0 mr) s1 em hp).1 (le_refl 0)
        exact phase2_some rexp M sweep lf fuel s1 s2 k h hinv1

lemma getD_replicate : ∀ (n i : ℕ), (List.replicate n (0:ℚ)).getD i 0 = 0 := by
  intro n
  induction n with
  | zero => intro i; simp
  | succ n ih =>
    intro i
    cases i with
    | zero => simp [List.replicate]
    | succ i => simp only [List.replicate, List.getD_cons_succ]; exact ih i

lemma accept_in_range (rexp : ℚ → ℚ) (g : Histogram) (oe ne u go gn : ℚ)
    (ho : g.at' oe = some go) (hn : g.at' ne = some gn) :
    accept rexp g oe ne u = (ne, false) ↔ u ≤ rexp (go - gn) := by
  unfold accept pAcc
  rw [ho, hn]
  dsimp only
  by_cases h : rexp (go - gn) < u
  · rw [if_pos h]
    constructor
    · intro he
      exact absurd (congrArg Prod.snd he) (by simp)
    · intro hle
      exact absurd h (not_lt.mpr hle)
  · rw [if_neg h]
    exact ⟨fun _ => not_lt.mp h, fun _ => rfl⟩

lemma pAcc_none (rexp : ℚ → ℚ) (g : Histogram) (oe ne : ℚ)
    (h : g.at' oe = none ∨ g.at' ne = none) : pAcc rexp g oe ne = 0 := by
  unfold pAcc
  rcases h with h | h
  · rw [h]
  · rw [h]
    rcases hx : g.at' oe with _ | v <;> rfl

lemma accept_out_range (rexp : ℚ → ℚ) (g : Histogram) (oe ne u : ℚ)
    (h : g.at' oe = none ∨ g.at' ne = none) (hu : 0 < u) :
    accept rexp g oe ne u = (oe, true) := by
  unfold accept
  rw [pAcc_none rexp g oe ne h, if_pos hu]

lemma accept_dichotomy (rexp : ℚ → ℚ) (g : Histogram) (oe ne u : ℚ) :
    accept rexp g oe ne u = (oe, true) ∨ accept rexp g oe ne u = (ne, false) := by
  unfold accept
  split
  · exact Or.inl rfl
  · exact Or.inr rfl

lemma volume_accept_set (p : ℝ) :
    MeasureTheory.volume {x : ℝ | x ∈ Set.Ico (0:ℝ) 1 ∧ x ≤ p}
      = ENNReal.ofReal (min 1 p) := by
  rcases lt_or_le p 1 with h1 | h1
  · have hset : {x : ℝ | x ∈ Set.Ico (0:ℝ) 1 ∧ x ≤ p} = Set.Icc 0 p := by
      ext x
      simp only [Set.mem_setOf_eq, Set.mem_Ico, Set.mem_Icc]
      constructor
      · rintro ⟨⟨hx0, _⟩, hxp⟩
        exact ⟨hx0, hxp⟩
      · rintro ⟨hx0, hxp⟩
        exact ⟨⟨hx0, lt_of_le_of_lt hxp h1⟩, hxp⟩
    rw [hset, Real.volume_Icc, min_eq_right (le_of_lt h1)]
    norm_num
  · have hset : {x : ℝ | x ∈ Set.Ico (0:ℝ) 1 ∧ x ≤ p} = Set.Ico 0 1 := by
      ext x
      simp only [Set.mem_setOf_eq, Set.mem_Ico]
      constructor
      · rintro ⟨hx, _⟩
        exact hx
      · rintro ⟨hx0, hx1⟩
        exact ⟨⟨hx0, hx1⟩, le_trans (le_of_lt hx1) h1⟩
    rw [hset, Real.volume_Ico, min_eq_left h1]
    norm_num

/-- Claim C1 (amended): for a Wang-Landau proposal with both energies inside the
histogram range, the move is kept (no undo, energy becomes new_e) exactly when
the draw u satisfies u <= exp(g(old_e) - g(new_e)), an event whose probability
under the uniform draw on [0,1) is min(1, exp(g(old_e) - g(new_e))); when either
energy is out of range the proposal is rejected — undo called once and the
energy reverts to old_e — for every draw u > 0; and every call either rejects
that way or keeps new_e. The original claim's "rejected unconditionally for
every value of u" fails at the probability-zero draw u = 0 (see the
counterexample): the source comparison p_acc < u is then 0 < 0, which accepts. -/
theorem wanglandau_accept_correct (rexp : ℚ → ℚ)
    (g : Histogram) (oe ne u : ℚ) :
    (∀ go gn, g.at' oe = some go → g.at' ne = some gn →
      ((accept rexp g oe ne u = (ne, false) ↔ u ≤ rexp (go - gn)) ∧
        MeasureTheory.volume
            {x : ℝ | x ∈ Set.Ico (0:ℝ) 1 ∧ x ≤ ((rexp (go - gn) : ℚ) : ℝ)}
          = ENNReal.ofReal (min 1 ((rexp (go - gn) : ℚ) : ℝ))))
    ∧ ((g.at' oe = none ∨ g.at' ne = none) → 0 < u →
        accept rexp g oe ne u = (oe, true))
    ∧ (accept rexp g oe ne u = (oe, true) ∨ accept rexp g oe ne u = (ne, false)) := by
  refine ⟨?_, ?_, accept_dichotomy rexp g oe ne u⟩
  · intro go gn ho hn
    exact ⟨accept_in_range rexp g oe ne u go gn ho hn,
      volume_accept_set ((rexp (go - gn) : ℚ) : ℝ)⟩
  · intro h hu
    exact accept_out_range rexp g oe ne u h hu

unseal Rat.add Rat.mul Rat.inv Rat.sub in
/-- Claim C1 counterexample: with both energies outside the histogram range and
the draw u = 0 (a legal value of rng.gen over [0,1)), the proposal is accepted:
undo is not called and the resulting energy is the out-of-range 7, refuting
"rejected unconditionally for every value of u". The out-of-range branch never
consults the exponential, so the instantiation of rexp is irrelevant. -/
theorem wanglandau_accept_counterexample :
    (⟨0, 2, 2, [0, 0]⟩ : Histogram).at' 5 = none ∧
    (⟨0, 2, 2, [0, 0]⟩ : Histogram).at' 7 = none ∧
    ((0:ℚ) ≤ 0 ∧ (0:ℚ) < 1) ∧
    accept (fun _ => 1) ⟨0, 2, 2, [0, 0]⟩ 5 7 0 = (7, false) := by decide

unseal Rat.add Rat.mul Rat.inv Rat.sub in
/-- Claim C1 witness: the amended theorem applied at a concrete in-range call. -/
theorem wanglandau_accept_correct_witness :
    accept (fun _ => (1:ℚ)) ⟨0, 2, 2, [5, 7]⟩ (1/2) (3/2) (1/3) = (3/2, false) := by
  have h := (wanglandau_accept_correct (fun _ => 1)
    ⟨0, 2, 2, [5, 7]⟩ (1/2) (3/2) (1/3)).1 5 7 (by decide) (by decide)
  exact h.1.mpr (by norm_num)

/-- Claim C9: the histogram interval is open at both ends: at the exact values
low and high, at returns none and add and count are no-ops, with the identical
boundary test in all three; consequently the acceptance rule treats a proposal
whose energy lies exactly on a window edge as out of range (pAcc = 0). -/
theorem open_boundary_policy (h : Histogram) (a oe : ℚ) (rexp : ℚ → ℚ) :
    h.at' h.low = none ∧ h.at' h.high = none ∧
    h.add h.low a = h ∧ h.add h.high a = h ∧
    h.count h.low = h ∧ h.count h.high = h ∧
    pAcc rexp h oe h.low = 0 ∧ pAcc rexp h h.low oe = 0 ∧
    pAcc rexp h oe h.high = 0 ∧ pAcc rexp h h.high oe = 0 := by
  have hal : h.at' h.low = none := by
    unfold Histogram.at'
    rw [if_neg (fun hc => lt_irrefl _ hc.1)]
  have hah : h.at' h.high = none := by
    unfold Histogram.at'
    rw [if_neg (fun hc => lt_irrefl _ hc.2)]
  refine ⟨hal, hah, ?_, ?_, ?_, ?_,
    pAcc_none rexp h oe h.low (Or.inr hal),
    pAcc_none rexp h h.low oe (Or.inl hal),
    pAcc_none rexp h oe h.high (Or.inr hah),
    pAcc_none rexp h h.high oe (Or.inl hah)⟩
  · unfold Histogram.add
    rw [if_neg (fun hc => lt_irrefl _ hc.1)]
  · unfold Histogram.add
    rw [if_neg (fun hc => lt_irrefl _ hc.2)]
  · unfold Histogram.count
    rw [if_neg (fun hc => lt_irrefl _ hc.1)]
  · unfold Histogram.count
    rw [if_neg (fun hc => lt_irrefl _ hc.2)]

/-- Claim C4: for every v strictly inside the interval of a histogram built by
new and a sequence of add operations, at v returns some of the accumulated
total of v's bin — the sum of the amounts of the in-range operations landing in
that bin; and for every value outside the open interval, at is none and add and
count leave the histogram completely unchanged. -/
theorem histogram_at_accumulated (low high v : ℚ) (bins : ℕ) (ops : List (ℚ × ℚ))
    (g0 : Histogram) (hnew : Histogram.new low high bins = some g0) (hb : 0 < bins)
    (h1 : low < v) (h2 : v < high) :
    ((applyOps g0 ops).at' v = some (accumulated low high bins v ops)) ∧
    (∀ (h : Histogram) (w aa : ℚ), ¬(h.low < w ∧ w < h.high) →
      h.at' w = none ∧ h.add w aa = h ∧ h.count w = h) := by
  constructor
  · have hg0 : g0 = ⟨low, high, bins, List.replicate bins 0⟩ := by
      unfold Histogram.new at hnew
      by_cases hlh : low < high
      · rw [if_pos hlh] at hnew
        exact (Option.some.inj hnew).symm
      · rw [if_neg hlh] at hnew
        exact absurd hnew (by simp)
    subst hg0
    rw [at_applyOps ops ⟨low, high, bins, List.replicate bins 0⟩ v (by simp) hb h1 h2]
    rw [show (List.replicate bins (0:ℚ)).getD
        ((⟨low, high, bins, List.replicate bins 0⟩ : Histogram).binIdx v) 0 = 0 from
      getD_replicate bins _]
    rw [zero_add]
  · intro h w aa hc
    unfold Histogram.at' Histogram.add Histogram.count
    rw [if_neg hc, if_neg hc, if_neg hc]
    exact ⟨rfl, rfl, rfl⟩

unseal Rat.add Rat.mul Rat.inv Rat.sub in
/-- Claim C4 witness: the theorem applied to a concrete operation sequence. -/
theorem histogram_at_accumulated_witness :
    (applyOps ⟨0, 2, 2, [0, 0]⟩ [(1/2, 3), (3/2, 5), (5, 7), (1/2, -1)]).at' (1/2)
      = some (accumulated 0 2 2 (1/2) [(1/2, 3), (3/2, 5), (5, 7), (1/2, -1)]) :=
  (histogram_at_accumulated 0 2 (1/2) 2 [(1/2, 3), (3/2, 5), (5, 7), (1/2, -1)]
    ⟨0, 2, 2, [0, 0]⟩ (by decide) (by decide) (by decide) (by decide)).1

/-- Claim C5 (amended): Histogram.new fails (the source asserts) exactly when
low >= high — not "low >= bins" as the claim stated — and on success every
accumulator is initialized to zero. -/
theorem histogram_new_precondition (low high : ℚ) (bins : ℕ) :
    ((Histogram.new low high bins = none) ↔ high ≤ low) ∧
    (∀ h', Histogram.new low high bins = some h' → h'.histogram.all (· == 0) = true) := by
  constructor
  · unfold Histogram.new
    by_cases hlh : low < high
    · rw [if_pos hlh]
      constructor
      · intro hc
        exact absurd hc (by simp)
      · intro hc
        exact absurd hlh (not_lt.mpr hc)
    · rw [if_neg hlh]
      exact ⟨fun _ => not_lt.mp hlh, fun _ => rfl⟩
  · intro h' hs
    unfold Histogram.new at hs
    by_cases hlh : low < high
    · rw [if_pos hlh] at hs
      obtain rfl : _ = h' := Option.some.inj hs
      simp [List.all_eq_true, List.mem_replicate]
    · rw [if_neg hlh] at hs
      exact absurd hs (by simp)

unseal Rat.add Rat.mul Rat.inv Rat.sub in
/-- Claim C5 counterexample: new(5, 10, 3) succeeds although low >= bins, and
new(0, 0, 5) fails although low < bins, refuting "fails exactly when
low >= bins". -/
theorem histogram_new_precondition_counterexample :
    ((3:ℕ):ℚ) ≤ 5 ∧ Histogram.new 5 10 3 = some ⟨5, 10, 3, [0, 0, 0]⟩ ∧
    ¬(((5:ℕ):ℚ) ≤ 0) ∧ Histogram.new 0 0 5 = none := by decide

/-- Claim C5 witness: the amended theorem applied at concrete arguments. -/
theorem histogram_new_precondition_witness :
    ((Histogram.new 0 1 2 = none) ↔ (1:ℚ) ≤ 0) ∧
    (⟨0, 1, 2, [0, 0]⟩ : Histogram).histogram.all (· == 0) = true :=
  ⟨(histogram_new_precondition 0 1 2).1,
    (histogram_new_precondition 0 1 2).2 ⟨0, 1, 2, [0, 0]⟩ (by decide)⟩

/-- Claim C6: calling trim on a histogram whose accumulators are all zero is a
precondition violation for every such histogram: the left scan finds no
positive bin and the source panics by indexing out of bounds (modelled none). -/
theorem trim_all_zero_panics (h : Histogram) (hz : ∀ x ∈ h.histogram, x = 0) :
    h.trim = none :=
  trim_none h (firstPos_none _ fun x hx => by rw [hz x hx]; exact lt_irrefl 0)

/-- Claim C6 witness: the theorem applied to a concrete all-zero histogram. -/
theorem trim_all_zero_panics_witness :
    Histogram.trim ⟨0, 1, 3, [0, 0, 0]⟩ = none :=
  trim_all_zero_panics ⟨0, 1, 3, [0, 0, 0]⟩ (by decide)

unseal Rat.add Rat.mul Rat.inv Rat.sub in
/-- Claim C3 (amended): for every well-formed histogram with non-negative
accumulators on which trim returns normally, the sum over data is preserved,
the bin count does not grow, and the new bounds are the old bounds shifted
inward by exactly the removed bin counts times the original bin width; the
concrete scenario low=0, high=10, bins=10 with bins 3..6 positive trims to
bins = 4, low = 3, high = 7. The non-negativity hypothesis is forced: a
negative leading bin is removed by trim and changes the sum (counterexample). -/
theorem trim_conservation :
    (∀ (h h' : Histogram), h.histogram.length = h.bins → (∀ x ∈ h.histogram, 0 ≤ x) →
      h.trim = some h' →
      h'.histogram.sum = h.histogram.sum ∧ h'.bins ≤ h.bins ∧
        h'.histogram.length = h'.bins ∧
        ∃ lb rb, lb + rb + h'.bins = h.bins ∧
          h'.low = h.low + (lb:ℚ) * (h.high - h.low) / (h.bins:ℚ) ∧
          h'.high = h.high - (rb:ℚ) * (h.high - h.low) / (h.bins:ℚ))
    ∧ Histogram.trim ⟨0, 10, 10, [0, 0, 0, 1, 2, 3, 4, 0, 0, 0]⟩
        = some ⟨3, 7, 4, [1, 2, 3, 4]⟩ := by
  constructor
  · exact fun h h' hw hnn ht => trim_spec h h' hw hnn ht
  · decide

unseal Rat.add Rat.mul Rat.inv Rat.sub in
/-- Claim C3 counterexample: trim on the histogram [-1, 1] over (0, 2) returns
normally but drops the negative leading bin, so the sum over data changes,
refuting sum preservation for arbitrary histograms. -/
theorem trim_conservation_counterexample :
    Histogram.trim ⟨0, 2, 2, [-1, 1]⟩ = some ⟨1, 2, 1, [1]⟩ ∧
    ((⟨1, 2, 1, [(1:ℚ)]⟩ : Histogram).histogram.sum
      ≠ (⟨0, 2, 2, [-1, (1:ℚ)]⟩ : Histogram).histogram.sum) := by decide

unseal Rat.add Rat.mul Rat.inv Rat.sub in
/-- Claim C3 witness: the amended theorem applied to the concrete scenario. -/
theorem trim_conservation_witness :
    (⟨3, 7, 4, [(1:ℚ), 2, 3, 4]⟩ : Histogram).histogram.sum
        = (⟨0, 10, 10, [0, 0, 0, (1:ℚ), 2, 3, 4, 0, 0, 0]⟩ : Histogram).histogram.sum ∧
      (⟨3, 7, 4, [(1:ℚ), 2, 3, 4]⟩ : Histogram).bins
        ≤ (⟨0, 10, 10, [0, 0, 0, (1:ℚ), 2, 3, 4, 0, 0, 0]⟩ : Histogram).bins := by
  have h := trim_conservation.1 ⟨0, 10, 10, [0, 0, 0, 1, 2, 3, 4, 0, 0, 0]⟩
    ⟨3, 7, 4, [1, 2, 3, 4]⟩ (by decide) (by decide)
    (by decide)
  exact ⟨h.1, h.2.1⟩

/-- Claim C10: reset sets every accumulator to exactly zero while leaving low,
high, bounds and the bin count unchanged, so afterwards min() = 0 (on a
nonempty histogram) and mean() = 0; and the phase-1 refinement cycle of the
engine applies exactly h.reset (with the lnf halving) after each flatness
loop, which is how h is cleared between cycles. -/
theorem reset_semantics :
    (∀ h : Histogram, h.reset.low = h.low ∧ h.reset.high = h.high ∧
      h.reset.bins = h.bins ∧ h.reset.bounds = h.bounds ∧
      (∀ x ∈ h.reset.histogram, x = 0) ∧ h.reset.mean = 0 ∧
      (0 < h.histogram.length → h.reset.min = 0))
    ∧ (∀ (σ : Type) (rexp : ℚ → ℚ) (M : Model σ) (sweep : ℕ) (lf : ℚ) (fuel : ℕ)
        (s s1 : WLState σ) (em : Bool),
        (s.t < 10 ∨ 1 / (s.t : ℚ) < s.lnf) →
        innerLoop rexp M sweep lf (fuel + 1) s = some (s1, em) →
        phase1 rexp M sweep lf (fuel + 1) s
          = (phase1 rexp M sweep lf fuel
              { s1 with h := s1.h.reset, lnf := s1.lnf / 2 }).map
              fun p => (p.1, em || p.2)) := by
  constructor
  · intro h
    obtain ⟨hl, hh, hb, hbd, _⟩ := reset_fields h
    exact ⟨hl, hh, hb, hbd, reset_all_zero h, reset_mean h, fun hp => reset_min h hp⟩
  · intro σ rexp M sweep lf fuel s s1 em hcond hinner
    rw [phase1, if_pos hcond, hinner]

/-- Claim C10 witness: the theorem applied to a concrete histogram and to the
concrete emergency cycle of the witness run. -/
theorem reset_semantics_witness :
    (⟨0, 2, 2, [(3:ℚ), 4]⟩ : Histogram).reset.mean = 0 ∧
    (⟨0, 2, 2, [(3:ℚ), 4]⟩ : Histogram).reset.min = 0 ∧
    phase1 rexp1 CM 1 (1/1000) (2 + 1) (cState 1 0 0 0 0 0 0 1)
      = (phase1 rexp1 CM 1 (1/1000) 2
          { cState 1001 1000 1000 1000 1000 1000 1000 (1/1000) with
            h := (cState 1001 1000 1000 1000 1000 1000 1000 (1/1000)).h.reset,
            lnf := (cState 1001 1000 1000 1000 1000 1000 1000 (1/1000)).lnf / 2 }).map
          fun p => (p.1, true || p.2) := by
  refine ⟨((reset_semantics.1 ⟨0, 2, 2, [(3:ℚ), 4]⟩).2.2.2.2.2.1),
    ((reset_semantics.1 ⟨0, 2, 2, [(3:ℚ), 4]⟩).2.2.2.2.2.2 (by norm_num)), ?_⟩
  exact reset_semantics.2 ℕ rexp1 CM 1 (1/1000) 2
    (cState 1 0 0 0 0 0 0 1) (cState 1001 1000 1000 1000 1000 1000 1000 (1/1000)) true
    (Or.inl (by norm_num [cState])) cInner

/-- Claim C2 (amended): whenever the phase-1 emergency recovery fires, the
engine trims both g and h, re-asserts that their bounds match, and sets
lnf = lnf_final before breaking the flatness loop (first conjunct); but the
enclosing refinement cycle still resets h and halves lnf, so whenever phase 1
returns with the emergency flag set its final lnf is at most lnf_final / 2
(second conjunct), and phase 2 then executes its loop body zero times (third
conjunct) — the run does not "proceed with lnf equal to lnf_final" and the
phase-2 loop body does not execute, contrary to the original claim. -/
theorem emergency_recovery (σ : Type) (rexp : ℚ → ℚ) (M : Model σ)
    (sweep : ℕ) (lf : ℚ) :
    (∀ (fuel : ℕ) (s s1 : WLState σ),
      innerLoop rexp M sweep lf fuel s = some (s1, true) →
      s1.lnf = lf ∧ s1.g.bounds = s1.h.bounds ∧
        ∃ sb : WLState σ, sb.g.trim = some s1.g ∧ sb.h.trim = some s1.h) ∧
    (∀ (fuel : ℕ) (s sf : WLState σ), 0 < lf →
      phase1 rexp M sweep lf fuel s = some (sf, true) → sf.lnf ≤ lf / 2) ∧
    (∀ (fuel : ℕ) (s : WLState σ), s.lnf ≤ lf →
      phase2 rexp M sweep lf fuel s = some (s, 0)) := by
  refine ⟨?_, ?_, ?_⟩
  · intro fuel s s1 h
    exact (innerLoop_some rexp M sweep lf fuel s s1 true h).2.2 rfl
  · intro fuel s sf hpos h
    exact (phase1_some rexp M sweep lf fuel s sf true h).2.2 rfl hpos
  · intro fuel s h
    exact phase2_zero rexp M sweep lf fuel s h

/-- Claim C2 counterexample: a concrete run over the constant-energy model in
which the emergency fires (flag true): phase 1 ends with lnf = 1/2000, not the
configured lnf_final = 1/1000, and phase 2 performs zero iterations of its
body, refuting "proceeds with lnf equal to lnf_final and continues directly
into phase 2 (the phase-2 loop body executes)". -/
theorem emergency_recovery_counterexample :
    phase1 rexp1 CM 1 (1/1000) 3 (cState 1 0 0 0 0 0 0 1)
      = some (cState 1001 1000 1000 0 1000 1000 1000 (1/2000), true) ∧
    (cState 1001 1000 1000 0 1000 1000 1000 (1/2000)).lnf ≠ (1/1000 : ℚ) ∧
    phase2 rexp1 CM 1 (1/1000) 3 (cState 1001 1000 1000 0 1000 1000 1000 (1/2000))
      = some (cState 1001 1000 1000 0 1000 1000 1000 (1/2000), 0) :=
  ⟨cPhase1, by norm_num [cState], cPhase2⟩

/-- Claim C2 witness: the amended theorem applied to the concrete emergency
run used by the counterexample. -/
theorem emergency_recovery_witness :
    ((cState 1001 1000 1000 1000 1000 1000 1000 (1/1000)).lnf = 1/1000 ∧
      (cState 1001 1000 1000 1000 1000 1000 1000 (1/1000)).g.bounds
        = (cState 1001 1000 1000 1000 1000 1000 1000 (1/1000)).h.bounds) ∧
    (cState 1001 1000 1000 0 1000 1000 1000 (1/2000)).lnf ≤ (1/1000 : ℚ) / 2 ∧
    phase2 rexp1 CM 1 (1/1000) 3 (cState 1001 1000 1000 0 1000 1000 1000 (1/2000))
      = some (cState 1001 1000 1000 0 1000 1000 1000 (1/2000), 0) := by
  have h := emergency_recovery ℕ rexp1 CM 1 (1/1000)
  have h1 := h.1 3 (cState 1 0 0 0 0 0 0 1)
    (cState 1001 1000 1000 1000 1000 1000 1000 (1/1000)) cInner
  exact ⟨⟨h1.1, h1.2.1⟩,
    h.2.1 3 (cState 1 0 0 0 0 0 0 1) (cState 1001 1000 1000 0 1000 1000 1000 (1/2000))
      (by norm_num) cPhase1,
    h.2.2 3 (cState 1001 1000 1000 0 1000 1000 1000 (1/2000)) (by norm_num [cState])⟩

/-- Claim C7 (amended): after phase 2 ends in state s2, the run performs
exactly 2 * s2.t outer entropic-sampling steps — tries grows by exactly
2 * s2.t * sweep — and g (bounds, bin count and every accumulator) is
unchanged throughout phase 3 up to the start of the bias-removal loop;
run returns exactly the finishRun of s2. The claim's parenthetical gloss
"twice the duration of phase 2" is wrong: t counts sweeps since the start
of the run, not phase 2's length (see the counterexample). -/
theorem phase3_frame (σ : Type) (rexp : ℚ → ℚ) (M : Model σ) (low high : ℚ)
    (bins sweep : ℕ) (lf : ℚ) (fuel : ℕ) (m : σ) (r : Rng) (s2 : WLState σ) (k : ℕ)
    (h : afterPhase2 rexp M low high bins sweep lf fuel m r = some (s2, k)) :
    (∀ j, (phase3Iter rexp M sweep j s2).g = s2.g) ∧
    (phase3Iter rexp M sweep (2 * s2.t) s2).tries = s2.tries + 2 * s2.t * sweep ∧
    run rexp M low high bins sweep lf fuel m r = some (finishRun rexp M sweep s2) ∧
    finishRun rexp M sweep s2
      = (((phase3Iter rexp M sweep (2 * s2.t) s2).tries,
          (phase3Iter rexp M sweep (2 * s2.t) s2).rejects),
         finalizeG (phase3Iter rexp M sweep (2 * s2.t) s2).g
           (phase3Iter rexp M sweep (2 * s2.t) s2).h) := by
  refine ⟨fun j => phase3Iter_g rexp M sweep j s2, ?_, ?_, rfl⟩
  · rw [phase3Iter_tries]
  · unfold run
    rw [h, Option.map_some']

/-- Claim C7 counterexample: in the concrete run, phase 2 executes zero outer
iterations (duration 0) while phase 3 performs 2 * t = 2000 outer steps, so
"2 * t outer steps" is not "twice the duration of phase 2". -/
theorem phase3_frame_counterexample :
    afterPhase2 rexp1 CM 0 2 1 1 (1/1000) 3 0 (crng 0)
      = some (cState 1001 1000 1000 0 1000 1000 1000 (1/2000), 0) ∧
    (phase3Iter rexp1 CM 1 (2 * (cState 1001 1000 1000 0 1000 1000 1000 (1/2000)).t)
        (cState 1001 1000 1000 0 1000 1000 1000 (1/2000))).tries
      = (cState 1001 1000 1000 0 1000 1000 1000 (1/2000)).tries + 2000 ∧
    (2000 : ℕ) ≠ 2 * 0 * 1 := by
  refine ⟨cAfter, ?_, by norm_num⟩
  rw [show 2 * (cState 1001 1000 1000 0 1000 1000 1000 (1/2000)).t = 2000 from
    by norm_num [cState]]
  rw [cPhase3 2000]
  norm_num [cState]

/-- Claim C7 witness: the amended theorem applied to the concrete run. -/
theorem phase3_frame_witness :
    (phase3Iter rexp1 CM 1 0 (cState 1001 1000 1000 0 1000 1000 1000 (1/2000))).g
      = (cState 1001 1000 1000 0 1000 1000 1000 (1/2000)).g ∧
    (phase3Iter rexp1 CM 1 (2 * (cState 1001 1000 1000 0 1000 1000 1000 (1/2000)).t)
        (cState 1001 1000 1000 0 1000 1000 1000 (1/2000))).tries
      = (cState 1001 1000 1000 0 1000 1000 1000 (1/2000)).tries
        + 2 * (cState 1001 1000 1000 0 1000 1000 1000 (1/2000)).t * 1 ∧
    run rexp1 CM 0 2 1 1 (1/1000) 3 0 (crng 0)
      = some (finishRun rexp1 CM 1 (cState 1001 1000 1000 0 1000 1000 1000 (1/2000))) := by
  have h := phase3_frame ℕ rexp1 CM 0 2 1 1 (1/1000) 3 0 (crng 0)
    (cState 1001 1000 1000 0 1000 1000 1000 (1/2000)) 0 cAfter
  exact ⟨h.1 0, h.2.1, h.2.2.1⟩

/-- Claim C8: for every run that returns normally the counter pair satisfies
rejects <= tries (both natural numbers, hence >= 0); every individual proposal
increments tries by exactly one and a group of n proposals adds exactly n, so
tries grows monotonically with elapsed sweeps across all phases; and the pair
returned by run is the counters accumulated through phase 3 from the state at
the end of phase 2. -/
theorem counters_invariant (σ : Type) (rexp : ℚ → ℚ) (M : Model σ) (low high : ℚ)
    (bins sweep : ℕ) (lf : ℚ) (fuel : ℕ) (m : σ) (r : Rng) :
    (∀ res, run rexp M low high bins sweep lf fuel m r = some res →
      res.1.2 ≤ res.1.1) ∧
    (∀ (dG dH : Bool) (s : WLState σ), (wlMove rexp M dG dH s).tries = s.tries + 1) ∧
    (∀ (dG dH : Bool) (n : ℕ) (s : WLState σ),
      (iterMoves rexp M dG dH n s).tries = s.tries + n) ∧
    (∀ s2 k, afterPhase2 rexp M low high bins sweep lf fuel m r = some (s2, k) →
      run rexp M low high bins sweep lf fuel m r = some (finishRun rexp M sweep s2)) := by
  refine ⟨?_, fun dG dH s => wlMove_tries rexp M dG dH s,
    fun dG dH n s => iterMoves_tries rexp M dG dH n s, ?_⟩
  · intro res hres
    unfold run at hres
    rcases ha : afterPhase2 rexp M low high bins sweep lf fuel m r
        with _ | ⟨s2, k⟩ <;> rw [ha] at hres
    · exact absurd hres (by simp)
    · rw [Option.map_some'] at hres
      obtain rfl : _ = res := Option.some.inj hres
      have hinv := afterPhase2_some rexp M low high bins sweep lf fuel m r s2 k ha
      show (phase3Iter rexp M sweep (2 * s2.t) s2).rejects
        ≤ (phase3Iter rexp M sweep (2 * s2.t) s2).tries
      exact phase3Iter_inv rexp M sweep (2 * s2.t) s2 hinv
  · intro s2 k ha
    unfold run
    rw [ha, Option.map_some']

/-- Claim C8 witness: the theorem applied to the concrete run and to a
concrete proposal step. -/
theorem counters_invariant_witness :
    (finishRun rexp1 CM 1 (cState 1001 1000 1000 0 1000 1000 1000 (1/2000))).1.2
      ≤ (finishRun rexp1 CM 1 (cState 1001 1000 1000 0 1000 1000 1000 (1/2000))).1.1 ∧
    (wlMove rexp1 CM true true (cState 0 0 0 0 5 3 0 1)).tries
      = (cState 0 0 0 0 5 3 0 1).tries + 1 := by
  have h := counters_invariant ℕ rexp1 CM 0 2 1 1 (1/1000) 3 0 (crng 0)
  have hrun := h.2.2.2 (cState 1001 1000 1000 0 1000 1000 1000 (1/2000)) 0 cAfter
  exact ⟨h.1 (finishRun rexp1 CM 1 (cState 1001 1000 1000 0 1000 1000 1000 (1/2000))) hrun,
    h.2.1 true true (cState 0 0 0 0 5 3 0 1)⟩
